import Mathlib

/-!
Verification of the streaming-chat client of `ai-chat` (frontend `ai-chat-ui`).

The development shallowly embeds, over `List Char` strings:
  * the JavaScript string primitives used by the code
    (`includes`, `indexOf`, `substring`, `trim`, `split('\n')`),
  * `JSON.parse` restricted to the grammar the protocol uses,
  * the SSE read loop of `ApiClient.chatStream` (src/ai-chat-ui/src/api/client.ts),
  * the streaming reassembler of `useConversations.sendMessage`
    (src/ai-chat-ui/src/hooks/useConversations.ts), including its
    error-path cleanup,
  * the `parseContent` display parser of `MessageBubble`.

JavaScript strings are modelled as `List Char` (all characters involved are
in the basic multilingual plane, so UTF-16 indices coincide with character
indices).  Timestamps (`Date.now()`) are passed in as explicit parameters.
-/

/-! ## JavaScript string primitives -/

/-- Character class of `String.prototype.trim` (ECMA-262 `TrimString`):
tab, LF, VT, FF, CR, space, NBSP, the Unicode space separators,
line/paragraph separators and the BOM. -/
def isJsSpace (c : Char) : Bool :=
  let n := c.toNat
  n = 9 || n = 10 || n = 11 || n = 12 || n = 13 || n = 32 || n = 160 ||
  n = 0x1680 || (0x2000 ≤ n && n ≤ 0x200a) || n = 0x2028 || n = 0x2029 ||
  n = 0x202f || n = 0x205f || n = 0x3000 || n = 0xfeff

/-- Model of `s.trim()`: drop `isJsSpace` characters from both ends. -/
def jsTrim (s : List Char) : List Char :=
  ((s.dropWhile isJsSpace).reverse.dropWhile isJsSpace).reverse

/-- First index (from the head of `s`) at which `pat` occurs as a contiguous
block, if any.  This is the search underlying `s.indexOf(pat)` and
`s.includes(pat)`. -/
def firstOccurrence (pat : List Char) : List Char → Option Nat
  | [] => if pat.isEmpty then some 0 else none
  | c :: s => if pat.isPrefixOf (c :: s) then some 0
              else (firstOccurrence pat s).map (· + 1)

/-- Model of `s.indexOf(pat)`: the first occurrence, or `-1`. -/
def jsIndexOf (s pat : List Char) : Int :=
  match firstOccurrence pat s with
  | some n => (n : Int)
  | none => -1

/-- Model of `s.includes(pat)`. -/
def jsIncludes (s pat : List Char) : Bool :=
  (firstOccurrence pat s).isSome

/-- Model of `s.substring(a, b)`: both arguments are clamped into
`[0, s.length]` and swapped when out of order. -/
def jsSubstring (s : List Char) (a b : Int) : List Char :=
  let len : Int := s.length
  let a' := min (max a 0) len
  let b' := min (max b 0) len
  let lo := min a' b'
  let hi := max a' b'
  (s.take hi.toNat).drop lo.toNat

/-- Model of the one-argument `s.substring(a)`. -/
def jsSubstringFrom (s : List Char) (a : Int) : List Char :=
  jsSubstring s a s.length

/-- Model of `s.split('\n')`. -/
def splitOnNl : List Char → List (List Char)
  | [] => [[]]
  | c :: cs =>
    if c = '\n' then [] :: splitOnNl cs
    else
      match splitOnNl cs with
      | h :: t => (c :: h) :: t
      | [] => [[c]]

/-! ## The display parser `parseContent` (MessageBubble component)

The component splits an assistant message's content into a thinking part
and a model-reply part using two literal markers. -/

/-- The thinking marker `[思考过程]` (6 UTF-16 units). -/
def thinkMarker : List Char := "[思考过程]".toList

/-- The reply marker `[模型回复]` (6 UTF-16 units). -/
def modelMarker : List Char := "[模型回复]".toList

/-- Model of `parseContent` from the `MessageBubble` component: when both
markers are present and the reply marker starts after the end of the
thinking marker's first occurrence, slice the two sections out and trim
them; otherwise return an empty thinking part and the whole content as
the model part.  Returns `(thinking, model)`. -/
def parseContent (content : List Char) : List Char × List Char :=
  if jsIncludes content thinkMarker && jsIncludes content modelMarker then
    let thinkingStart := jsIndexOf content thinkMarker + 6
    let modelStart := jsIndexOf content modelMarker
    if 6 ≤ thinkingStart ∧ thinkingStart < modelStart then
      (jsTrim (jsSubstring content thinkingStart modelStart),
       jsTrim (jsSubstringFrom content (modelStart + 6)))
    else ([], content)
  else ([], content)

/-! ## The streaming reassembler (`useConversations.sendMessage`)

`sendMessage` owns two accumulating string variables, `thinkingProcess`
and `accumulatedContent`, plus the conversation's message list, in which a
provisional assistant message (id `tempAiMessageId`) is updated after each
event.  We model one conversation's message list; a message keeps only the
fields the claims are about (identifier and content). -/

/-- Projection of a chat `Message` to the fields the streaming logic
touches. -/
structure Msg where
  id : Int
  content : List Char
deriving DecidableEq, Repr

/-- The mutable state of one in-flight `sendMessage` call. -/
structure SendState where
  thinkingProcess : List Char
  accumulatedContent : List Char
  messages : List Msg
deriving DecidableEq, Repr

/-- The three recognised stream events plus the ignored remainder
(`event.type` not one of the three recognised strings is a silent no-op in
the dispatch). -/
inductive StreamEvent where
  | thinking (message : List Char)
  | delta (content : List Char)
  | answerEnd (messageId : Int)
  | other
deriving DecidableEq, Repr

/-- Test for a `thinking_process` event. -/
def StreamEvent.isThinking : StreamEvent → Bool
  | .thinking _ => true
  | _ => false

/-- Test for a `text_message_end` event. -/
def StreamEvent.isAnswerEnd : StreamEvent → Bool
  | .answerEnd _ => true
  | _ => false

/-- The composite display string built by `sendMessage`: the thinking
marker, a newline, the thinking buffer `tp`, the reply marker, a newline
and the answer buffer `ac`, concatenated by the template literal. -/
def mkFormatted (tp ac : List Char) : List Char :=
  thinkMarker ++ '\n' :: (tp ++ modelMarker ++ '\n' :: ac)

/-- Update of the conversation message list performed after a
`thinking_process` or `text_message_delta` event: the message whose id is
`tempAiMessageId` gets the freshly formatted content. -/
def setContent (tempId : Int) (newContent : List Char) (msgs : List Msg) : List Msg :=
  msgs.map fun m => if m.id = tempId then ⟨m.id, newContent⟩ else m

/-- The composite string the event handler computes for an event (before
writing it into the provisional message); `none` for an unrecognised
event type, which computes nothing. -/
def compositeOf (st : SendState) : StreamEvent → Option (List Char)
  | .thinking m =>
      some (mkFormatted (st.thinkingProcess ++ m ++ ['\n']) st.accumulatedContent)
  | .delta c =>
      let ac := st.accumulatedContent ++ c
      some (if st.thinkingProcess = [] then ac else mkFormatted st.thinkingProcess ac)
  | .answerEnd _ =>
      some (if st.thinkingProcess = [] then st.accumulatedContent
            else mkFormatted st.thinkingProcess st.accumulatedContent)
  | .other => none

/-- One step of the `onEvent` callback of `sendMessage`:
  * `thinking_process`: append `event.data.message + '\n'` to
    `thinkingProcess` and rewrite the provisional message's content with
    the marker format;
  * `text_message_delta`: append `event.data.content` to
    `accumulatedContent` and rewrite the content (marker format only when
    `thinkingProcess` is non-empty — JS truthiness of the string);
  * `text_message_end`: rewrite the provisional message, replacing its id
    with `event.data.message_id` and its content with the final format;
  * anything else: no mutation. -/
def stepEvent (tempId : Int) (st : SendState) : StreamEvent → SendState
  | .thinking m =>
      let tp := st.thinkingProcess ++ m ++ ['\n']
      ⟨tp, st.accumulatedContent,
        setContent tempId (mkFormatted tp st.accumulatedContent) st.messages⟩
  | .delta c =>
      let ac := st.accumulatedContent ++ c
      let formatted := if st.thinkingProcess = [] then ac
                       else mkFormatted st.thinkingProcess ac
      ⟨st.thinkingProcess, ac, setContent tempId formatted st.messages⟩
  | .answerEnd mid =>
      let finalContent := if st.thinkingProcess = [] then st.accumulatedContent
                          else mkFormatted st.thinkingProcess st.accumulatedContent
      ⟨st.thinkingProcess, st.accumulatedContent,
        st.messages.map fun m => if m.id = tempId then ⟨mid, finalContent⟩ else m⟩
  | .other => st

/-- Fold the event handler over a list of events. -/
def runEvents (tempId : Int) (st : SendState) (es : List StreamEvent) : SendState :=
  es.foldl (stepEvent tempId) st

/-- The ordered list of composite strings computed while processing the
events (one per recognised event — the per-event recomputation the spec
calls the sole observable side effect). -/
def compositeTrace (tempId : Int) (st : SendState) : List StreamEvent → List (List Char)
  | [] => []
  | e :: es =>
    match compositeOf st e with
    | some f => f :: compositeTrace tempId (stepEvent tempId st e) es
    | none => compositeTrace tempId (stepEvent tempId st e) es

/-- State at the start of streaming: both accumulators empty
(`let accumulatedContent = ''; let thinkingProcess = ''`). -/
def initSendState (msgs : List Msg) : SendState := ⟨[], [], msgs⟩

/-- Concatenation, in arrival order, of the `data.content` fields of the
`text_message_delta` events of a stream. -/
def deltaConcat : List StreamEvent → List Char
  | [] => []
  | .delta c :: es => c ++ deltaConcat es
  | _ :: es => deltaConcat es

/-- Concatenation, in arrival order, of the `data.message` fields of the
`thinking_process` events of a stream, each followed by the `'\n'`
separator the handler appends. -/
def thinkConcat : List StreamEvent → List Char
  | [] => []
  | .thinking m :: es => (m ++ ['\n']) ++ thinkConcat es
  | _ :: es => thinkConcat es

/-- Provisional messages added by `sendMessage` before streaming: the user
message (id `Date.now()`, here `t0`) and the empty assistant message
(id `t0 + 1`). -/
def addProvisionalMessages (t0 : Int) (userContent : List Char) (msgs : List Msg) : List Msg :=
  (msgs ++ [⟨t0, userContent⟩]) ++ [⟨t0 + 1, []⟩]

/-- The catch-block cleanup of `sendMessage`: it filters out messages whose
id equals `Date.now()` or `Date.now() + 1` — with `Date.now()` re-evaluated
at the time of the error (`tErr`), not the captured provisional ids. -/
def sendErrorCleanup (tErr : Int) (msgs : List Msg) : List Msg :=
  msgs.filter fun m => decide (m.id ≠ tErr) && decide (m.id ≠ tErr + 1)

/-! ## JSON values and a model of `JSON.parse`

The transport loop calls `JSON.parse` on every `data: `-prefixed line and
skips the line when parsing throws.  We model JSON values and a
recursive-descent parser for the grammar the protocol exercises (objects,
arrays, strings without `\u` escapes, integer numbers, booleans, null);
fractional/exponent numbers and `\u` escapes — unused by the protocol —
are rejected by the model. -/

/-- JSON values. -/
inductive Json where
  | null
  | bool (b : Bool)
  | num (n : Int)
  | str (s : List Char)
  | arr (elems : List Json)
  | obj (fields : List (List Char × Json))

/-- JSON insignificant whitespace (space, tab, LF, CR). -/
def skipWs (cs : List Char) : List Char :=
  cs.dropWhile fun c => c = ' ' || c = '\t' || c = '\n' || c = '\r'

/-- Parse the body of a JSON string after the opening quote, returning the
decoded characters and the remainder after the closing quote.  Raw control
characters are rejected, as `JSON.parse` rejects them. -/
def parseStringBody : Nat → List Char → List Char → Option (List Char × List Char)
  | 0, _, _ => none
  | _ + 1, [], _ => none
  | f + 1, c :: rest, acc =>
    if c = '"' then some (acc.reverse, rest)
    else if c = '\\' then
      match rest with
      | [] => none
      | e :: rest2 =>
        if e = '"' then parseStringBody f rest2 ('"' :: acc)
        else if e = '\\' then parseStringBody f rest2 ('\\' :: acc)
        else if e = '/' then parseStringBody f rest2 ('/' :: acc)
        else if e = 'n' then parseStringBody f rest2 ('\n' :: acc)
        else if e = 't' then parseStringBody f rest2 ('\t' :: acc)
        else if e = 'r' then parseStringBody f rest2 ('\r' :: acc)
        else if e = 'b' then parseStringBody f rest2 ('\x08' :: acc)
        else if e = 'f' then parseStringBody f rest2 ('\x0c' :: acc)
        else none
    else if c.toNat < 32 then none
    else parseStringBody f rest (c :: acc)

/-- Digit-sequence value. -/
def digitsToNat (ds : List Char) : Nat :=
  ds.foldl (fun a c => a * 10 + (c.toNat - 48)) 0

/-- Parse a JSON integer literal (digits, no leading zero). -/
def parseIntDigits (cs : List Char) : Option (Nat × List Char) :=
  let ds := cs.takeWhile Char.isDigit
  let rest := cs.dropWhile Char.isDigit
  if ds.isEmpty then none
  else if 1 < ds.length ∧ ds.headD '0' = '0' then none
  else some (digitsToNat ds, rest)

/-- Parser mode: a whole value, the members of an object after its opening
brace, or the elements of an array after its opening bracket (with the
fields or elements read so far). -/
inductive PMode where
  | value
  | objRest (acc : List (List Char × Json))
  | arrRest (acc : List Json)

/-- Fuelled recursive-descent JSON parser.  Returns the parsed value and
the unconsumed remainder. -/
def parseStep : Nat → PMode → List Char → Option (Json × List Char)
  | 0, _, _ => none
  | f + 1, PMode.value, cs0 =>
    match skipWs cs0 with
    | [] => none
    | c :: rest =>
      if c = '"' then
        match parseStringBody (f + 1) rest [] with
        | some (s, r) => some (Json.str s, r)
        | none => none
      else if c = '\x7b' then
        match skipWs rest with
        | '\x7d' :: r2 => some (Json.obj [], r2)
        | cs2 => parseStep f (PMode.objRest []) cs2
      else if c = '[' then
        match skipWs rest with
        | ']' :: r2 => some (Json.arr [], r2)
        | cs2 => parseStep f (PMode.arrRest []) cs2
      else if c = 't' then
        if rest.take 3 = ['r', 'u', 'e'] then some (Json.bool true, rest.drop 3) else none
      else if c = 'f' then
        if rest.take 4 = ['a', 'l', 's', 'e'] then some (Json.bool false, rest.drop 4) else none
      else if c = 'n' then
        if rest.take 3 = ['u', 'l', 'l'] then some (Json.null, rest.drop 3) else none
      else if c = '-' then
        match parseIntDigits rest with
        | some (n, r) => some (Json.num (-(n : Int)), r)
        | none => none
      else
        match parseIntDigits (c :: rest) with
        | some (n, r) => some (Json.num (n : Int), r)
        | none => none
  | f + 1, PMode.objRest acc, cs0 =>
    match skipWs cs0 with
    | '"' :: rest =>
      match parseStringBody (f + 1) rest [] with
      | none => none
      | some (k, r1) =>
        match skipWs r1 with
        | ':' :: r2 =>
          match parseStep f PMode.value r2 with
          | none => none
          | some (v, r3) =>
            match skipWs r3 with
            | ',' :: r4 => parseStep f (PMode.objRest (acc ++ [(k, v)])) r4
            | '\x7d' :: r4 => some (Json.obj (acc ++ [(k, v)]), r4)
            | _ => none
        | _ => none
    | _ => none
  | f + 1, PMode.arrRest acc, cs0 =>
    match parseStep f PMode.value cs0 with
    | none => none
    | some (v, r1) =>
      match skipWs r1 with
      | ',' :: r2 => parseStep f (PMode.arrRest (acc ++ [v])) r2
      | ']' :: r2 => some (Json.arr (acc ++ [v]), r2)
      | _ => none

/-- Model of `JSON.parse`: parse one value, allow trailing whitespace,
reject any other trailing input.  `none` models a thrown `SyntaxError`. -/
def jsonParse (cs : List Char) : Option Json :=
  match parseStep (2 * cs.length + 2) PMode.value cs with
  | some (v, rest) => if skipWs rest = [] then some v else none
  | none => none

/-! ## Property access and string coercion on parsed values -/

/-- Last-wins lookup among object fields (`JSON.parse` keeps the last of
duplicate keys). -/
def lookupLast (key : List Char) : List (List Char × Json) → Option Json
  | [] => none
  | (k, v) :: rest =>
    match lookupLast key rest with
    | some r => some r
    | none => if k = key then some v else none

/-- Model of property access `j.key` on a parsed value: `some` is a defined
value, `none` is `undefined` (properties of non-objects are undefined;
access on `null` is handled by the callers, where it throws). -/
def jsGetField (j : Json) (key : List Char) : Option Json :=
  match j with
  | .obj fields => lookupLast key fields
  | _ => none

/-- String coercion of a parsed value under a fuel bound (arrays join their
comma-separated members, with `null` members becoming empty, as in
JavaScript's `Array.prototype.toString`). -/
def jsToStringFuel : Nat → Json → List Char
  | 0, _ => []
  | f + 1, j =>
    match j with
    | .str s => s
    | .num n => (toString n).toList
    | .null => "null".toList
    | .bool true => "true".toList
    | .bool false => "false".toList
    | .obj _ => "[object Object]".toList
    | .arr xs =>
      List.intercalate [','] (xs.map fun x =>
        match x with
        | .null => []
        | y => jsToStringFuel f y)

/-- Model of JavaScript string coercion `'' + j`.  The fuel caps the array
nesting depth the coercion descends into; values nested deeper than 1000
arrays — far beyond anything a chat event carries, and unexercised by any
theorem below — would coerce to the empty string. -/
def jsToString (j : Json) : List Char :=
  jsToStringFuel 1000 j

/-- Coercion of a possibly-undefined field as it appears in
`thinkingProcess += event.data.message + '\n'` (an absent field is
`undefined`, which coerces to the string `"undefined"`). -/
def coerceField (d : Json) (key : List Char) : List Char :=
  match jsGetField d key with
  | none => "undefined".toList
  | some v => jsToString v

/-! ## From parsed JSON to stream events

The dispatch in `sendMessage` reads `event.type` and, per branch, the
`event.data.message` / `event.data.content` / `event.data.message_id`
field.  `none` models a thrown `TypeError` inside the callback (property
access on `null`/`undefined`), which the transport loop's `catch` also
swallows; `some .other` models a type that matches no branch (silent
no-op).  A non-numeric `message_id` would be stored verbatim by the
JavaScript; the integer-typed message state does not represent that case
and no claim exercises it, so it maps to `none`. -/
def eventOfJson : Json → Option StreamEvent
  | .null => none
  | j =>
    match jsGetField j ("type".toList) with
    | some (.str ty) =>
      if ty = "thinking_process".toList then
        match jsGetField j ("data".toList) with
        | none => none
        | some .null => none
        | some d => some (.thinking (coerceField d ("message".toList)))
      else if ty = "text_message_delta".toList then
        match jsGetField j ("data".toList) with
        | none => none
        | some .null => none
        | some d => some (.delta (coerceField d ("content".toList)))
      else if ty = "text_message_end".toList then
        match jsGetField j ("data".toList) with
        | none => none
        | some .null => none
        | some d =>
          match jsGetField d ("message_id".toList) with
          | some (.num n) => some (.answerEnd n)
          | _ => none
      else some .other
    | _ => some .other

/-! ## The transport read loop (`ApiClient.chatStream`)

Each decoded chunk is split on `'\n'`; each line with the `data: ` prefix
has the prefix stripped and the remainder `JSON.parse`d, and the parsed
event is handed to `onEvent`; a throwing parse (or a throwing callback)
is caught, logged and skipped.  Nothing is carried over between chunks. -/

/-- The `data: ` record prefix. -/
def dataMark : List Char := "data: ".toList

/-- Payload of a line: the remainder after `data: ` (`line.slice(6)`) if
the line starts with the prefix. -/
def dataLinePayload (line : List Char) : Option (List Char) :=
  if dataMark.isPrefixOf line then some (line.drop 6) else none

/-- The parsed events a single chunk delivers to `onEvent`, in order. -/
def chunkJsonEvents (chunk : List Char) : List Json :=
  (splitOnNl chunk).filterMap fun line => (dataLinePayload line).bind jsonParse

/-- The parsed events an entire chunk sequence delivers to `onEvent`, in
order (the read loop processes chunks sequentially). -/
def chatStreamEvents (chunks : List (List Char)) : List Json :=
  chunks.flatMap chunkJsonEvents

/-- Processing of one line of the stream by `chatStream` with the
`sendMessage` callback installed: skip non-`data: ` lines; parse the
payload, skipping it when `JSON.parse` or the callback throws; otherwise
run one reassembler step. -/
def processLine (tempId : Int) (st : SendState) (line : List Char) : SendState :=
  match dataLinePayload line with
  | none => st
  | some payload =>
    match jsonParse payload with
    | none => st
    | some j =>
      match eventOfJson j with
      | none => st
      | some e => stepEvent tempId st e

/-- Processing of one decoded chunk: split on newlines, process each line. -/
def processChunk (tempId : Int) (st : SendState) (chunk : List Char) : SendState :=
  (splitOnNl chunk).foldl (processLine tempId) st

/-- The whole read loop over a chunk sequence. -/
def runChunks (tempId : Int) (st : SendState) (chunks : List (List Char)) : SendState :=
  chunks.foldl (processChunk tempId) st

/-- A complete `data: ` record line as the backend emits it. -/
def dataLine (p : List Char) : List Char :=
  (dataMark ++ p) ++ ['\n']

/-- The five-event stream of the spec's worked example:
`thinking_process("a\n")`, `thinking_process("b\n")`,
`text_message_delta("X")`, `text_message_delta("Y")`,
`text_message_end(id=42)`. -/
def exampleEvents : List StreamEvent :=
  [.thinking ("a\n".toList), .thinking ("b\n".toList), .delta ("X".toList),
   .delta ("Y".toList), .answerEnd 42]

/-! # Theorems -/

/-! ## General helper lemmas -/

lemma map_eq_self_of {α : Type} (l : List α) (f : α → α) (h : ∀ x ∈ l, f x = x) :
    l.map f = l := by
  induction l with
  | nil => rfl
  | cons a t ih =>
    simp only [List.map_cons, h a (by simp)]
    rw [ih fun x hx => h x (by simp [hx])]

lemma firstOccurrence_of_prefix {pat s : List Char} (h : pat <+: s) :
    firstOccurrence pat s = some 0 := by
  cases s with
  | nil =>
    have : pat = [] := List.prefix_nil.mp h
    simp [firstOccurrence, this]
  | cons c cs =>
    simp [firstOccurrence, List.isPrefixOf_iff_prefix.mpr h]

lemma firstOccurrence_eq_some {pat s : List Char} {n : Nat}
    (hocc : pat <+: s.drop n) (hmin : ∀ m, m < n → ¬ pat <+: s.drop m) :
    firstOccurrence pat s = some n := by
  induction n generalizing s with
  | zero => simpa using firstOccurrence_of_prefix (by simpa using hocc)
  | succ n ih =>
    cases s with
    | nil =>
      exfalso
      have h1 : pat <+: ([] : List Char) := by simpa using hocc
      exact hmin 0 (Nat.succ_pos n) (by simpa using h1)
    | cons c cs =>
      have h0 : ¬ pat <+: (c :: cs) := by simpa using hmin 0 (Nat.succ_pos n)
      have hb : pat.isPrefixOf (c :: cs) = false := by
        simp only [Bool.eq_false_iff, ne_eq, List.isPrefixOf_iff_prefix]
        exact h0
      have step : firstOccurrence pat (c :: cs) = (firstOccurrence pat cs).map (· + 1) := by
        simp [firstOccurrence, hb]
      have hocc' : pat <+: cs.drop n := by simpa using hocc
      have hmin' : ∀ m, m < n → ¬ pat <+: cs.drop m := by
        intro m hm
        simpa using hmin (m + 1) (Nat.succ_lt_succ hm)
      rw [step, ih hocc' hmin']
      rfl

lemma firstOccurrence_none {pat s : List Char} (h : firstOccurrence pat s = none) :
    ∀ n, ¬ pat <+: s.drop n := by
  induction s with
  | nil =>
    intro n hp
    have hpe : pat = [] := List.prefix_nil.mp (by simpa using hp)
    simp [firstOccurrence, hpe] at h
  | cons c cs ih =>
    intro n hp
    by_cases hpre : pat.isPrefixOf (c :: cs)
    · simp [firstOccurrence, hpre] at h
    · have h' : firstOccurrence pat cs = none := by
        simpa [firstOccurrence, hpre] using h
      cases n with
      | zero =>
        exact hpre ( List.isPrefixOf_iff_prefix.mpr (by simpa using hp))
      | succ n =>
        exact ih h' n (by simpa using hp)

lemma prefix_getElem {pat l : List Char} (h : pat <+: l) {i : Nat}
    (hi : i < pat.length) : l[i]? = pat[i]? := by
  obtain ⟨w, rfl⟩ := h
  exact List.getElem?_append_left hi

/-! ## Reassembler lemmas -/

lemma setContent_of_absent (tempId : Int) (c : List Char) (msgs : List Msg)
    (h : ∀ m ∈ msgs, m.id ≠ tempId) : setContent tempId c msgs = msgs :=
  map_eq_self_of _ _ fun m hm => by simp [h m hm]

lemma stepEvent_messages_of_absent (tempId : Int) (st : SendState) (e : StreamEvent)
    (h : ∀ m ∈ st.messages, m.id ≠ tempId) :
    (stepEvent tempId st e).messages = st.messages := by
  cases e with
  | thinking m => simp [stepEvent, setContent_of_absent _ _ _ h]
  | delta c => simp [stepEvent, setContent_of_absent _ _ _ h]
  | answerEnd mid =>
    simp only [stepEvent]
    exact map_eq_self_of _ _ fun m hm => by simp [h m hm]
  | other => rfl

lemma runEvents_messages_of_absent (tempId : Int) (st : SendState)
    (es : List StreamEvent) (h : ∀ m ∈ st.messages, m.id ≠ tempId) :
    (runEvents tempId st es).messages = st.messages := by
  induction es generalizing st with
  | nil => rfl
  | cons e es ih =>
    have hstep : (stepEvent tempId st e).messages = st.messages :=
      stepEvent_messages_of_absent tempId st e h
    have : runEvents tempId st (e :: es) = runEvents tempId (stepEvent tempId st e) es := rfl
    rw [this, ih (stepEvent tempId st e) (by rw [hstep]; exact h), hstep]

lemma after_end_absent (tempId mid : Int) (st : SendState) (hmid : mid ≠ tempId) :
    ∀ m ∈ (stepEvent tempId st (.answerEnd mid)).messages, m.id ≠ tempId := by
  intro m hm
  simp only [stepEvent] at hm
  obtain ⟨m0, hm0, rfl⟩ := List.mem_map.mp hm
  by_cases h : m0.id = tempId
  · simp [h, hmid]
  · simp [h]

lemma runEvents_buffers (tempId : Int) (es : List StreamEvent) (st : SendState) :
    (runEvents tempId st es).accumulatedContent = st.accumulatedContent ++ deltaConcat es ∧
    (runEvents tempId st es).thinkingProcess = st.thinkingProcess ++ thinkConcat es := by
  induction es generalizing st with
  | nil => simp [runEvents, deltaConcat, thinkConcat]
  | cons e es ih =>
    have hstep : runEvents tempId st (e :: es) = runEvents tempId (stepEvent tempId st e) es := rfl
    rw [hstep]
    obtain ⟨h1, h2⟩ := ih (stepEvent tempId st e)
    cases e with
    | thinking m =>
      exact ⟨by rw [h1]; simp [stepEvent, deltaConcat],
             by rw [h2]; simp [stepEvent, thinkConcat]⟩
    | delta c =>
      exact ⟨by rw [h1]; simp [stepEvent, deltaConcat],
             by rw [h2]; simp [stepEvent, thinkConcat]⟩
    | answerEnd mid =>
      exact ⟨by rw [h1]; simp [stepEvent, deltaConcat],
             by rw [h2]; simp [stepEvent, thinkConcat]⟩
    | other =>
      exact ⟨by rw [h1]; simp [stepEvent, deltaConcat],
             by rw [h2]; simp [stepEvent, thinkConcat]⟩

lemma trace_no_thinking (tempId : Int) (es : List StreamEvent) (st : SendState)
    (htp : st.thinkingProcess = []) (hes : ∀ e ∈ es, e.isThinking = false) :
    (runEvents tempId st es).thinkingProcess = [] ∧
    ∀ f ∈ compositeTrace tempId st es,
      ∃ p, p <+: es ∧ f = st.accumulatedContent ++ deltaConcat p := by
  induction es generalizing st with
  | nil =>
    refine ⟨by simpa [runEvents] using htp, ?_⟩
    intro f hf
    simp [compositeTrace] at hf
  | cons e es ih =>
    cases e with
    | thinking m =>
      exact absurd (hes _ (List.mem_cons_self _ _)) (by simp [StreamEvent.isThinking])
    | delta c =>
      have hes' : ∀ e ∈ es, e.isThinking = false := fun e he => hes e (List.mem_cons_of_mem _ he)
      have htp' : (stepEvent tempId st (.delta c)).thinkingProcess = [] := by
        simpa [stepEvent] using htp
      obtain ⟨H1, H2⟩ := ih (stepEvent tempId st (.delta c)) htp' hes'
      refine ⟨H1, ?_⟩
      intro f hf
      rw [compositeTrace] at hf
      simp only [compositeOf, htp, if_pos rfl] at hf
      rcases List.mem_cons.mp hf with hf | hf
      · exact ⟨[.delta c], ⟨es, rfl⟩, by simp [deltaConcat, hf]⟩
      · obtain ⟨p, hp, hfe⟩ := H2 f hf
        refine ⟨.delta c :: p, List.cons_prefix_cons.mpr ⟨rfl, hp⟩, ?_⟩
        rw [hfe]
        simp [stepEvent, deltaConcat]
    | answerEnd mid =>
      have hes' : ∀ e ∈ es, e.isThinking = false := fun e he => hes e (List.mem_cons_of_mem _ he)
      have htp' : (stepEvent tempId st (.answerEnd mid)).thinkingProcess = [] := by
        simpa [stepEvent] using htp
      obtain ⟨H1, H2⟩ := ih (stepEvent tempId st (.answerEnd mid)) htp' hes'
      refine ⟨H1, ?_⟩
      intro f hf
      rw [compositeTrace] at hf
      simp only [compositeOf, htp, if_pos rfl] at hf
      rcases List.mem_cons.mp hf with hf | hf
      · exact ⟨[], List.nil_prefix, by simp [deltaConcat, hf]⟩
      · obtain ⟨p, hp, hfe⟩ := H2 f hf
        refine ⟨.answerEnd mid :: p, List.cons_prefix_cons.mpr ⟨rfl, hp⟩, ?_⟩
        rw [hfe]
        simp [stepEvent, deltaConcat]
    | other =>
      have hes' : ∀ e ∈ es, e.isThinking = false := fun e he => hes e (List.mem_cons_of_mem _ he)
      obtain ⟨H1, H2⟩ := ih (stepEvent tempId st .other) htp hes'
      refine ⟨H1, ?_⟩
      intro f hf
      rw [compositeTrace] at hf
      simp only [compositeOf] at hf
      obtain ⟨p, hp, hfe⟩ := H2 f hf
      exact ⟨.other :: p, List.cons_prefix_cons.mpr ⟨rfl, hp⟩, by rw [hfe]; simp [stepEvent, deltaConcat]⟩

lemma setContent_ids (tempId : Int) (c : List Char) (msgs : List Msg) :
    (setContent tempId c msgs).map Msg.id = msgs.map Msg.id := by
  induction msgs with
  | nil => rfl
  | cons m ms ih =>
    by_cases h : m.id = tempId
    · simp only [setContent, List.map_cons] at ih ⊢
      simp [h, ih]
    · simp only [setContent, List.map_cons] at ih ⊢
      simp [h, ih]

lemma runEvents_ids_of_no_end (tempId : Int) (st : SendState) (es : List StreamEvent)
    (hes : ∀ e ∈ es, e.isAnswerEnd = false) :
    (runEvents tempId st es).messages.map Msg.id = st.messages.map Msg.id := by
  induction es generalizing st with
  | nil => rfl
  | cons e es ih =>
    have hes' : ∀ e ∈ es, e.isAnswerEnd = false := fun e he => hes e (List.mem_cons_of_mem _ he)
    have hstep : runEvents tempId st (e :: es) = runEvents tempId (stepEvent tempId st e) es := rfl
    rw [hstep, ih (stepEvent tempId st e) hes']
    cases e with
    | thinking m => simp [stepEvent, setContent_ids]
    | delta c => simp [stepEvent, setContent_ids]
    | answerEnd mid =>
      exact absurd (hes _ (List.mem_cons_self _ _)) (by simp [StreamEvent.isAnswerEnd])
    | other => rfl

/-! ## Claim C2 -/

/-- C2, counterexample: after the two events `thinking_process("a\n")` and
`thinking_process("b\n")` the provisional message's composite content
displays the thinking text `"a\n\nb"` — the handler appends its own `'\n'`
separator after each chunk — and not `"a\nb"` as the claim states. -/
theorem reassembler_trace_claim_cex :
    (runEvents 1 (initSendState [⟨1, []⟩])
        [.thinking ("a\n".toList), .thinking ("b\n".toList)]).messages
      = [⟨1, "[思考过程]\na\n\nb\n\n[模型回复]\n".toList⟩] ∧
    (parseContent ("[思考过程]\na\n\nb\n\n[模型回复]\n".toList)).1 = "a\n\nb".toList ∧
    "a\n\nb".toList ≠ "a\nb".toList :=
  ⟨by decide, by decide, by decide⟩

/-- C2 (amended): the five-event stream `thinking_process("a\n")`,
`thinking_process("b\n")`, `text_message_delta("X")`,
`text_message_delta("Y")`, `text_message_end(id=42)` produces, in order,
composite strings whose parsed display parts are: thinking `"a"` alone,
thinking `"a\n\nb"` alone (the handler's own `'\n'` separator follows each
chunk, so a chunk already ending in a newline yields a blank line),
thinking `"a\n\nb"` with answer `"X"`, then with answer `"XY"`, then the
final composite with answer `"XY"`; the run ends with the stored message
carrying identifier `42` and the accumulated answer text exactly `"XY"`. -/
theorem reassembler_five_event_trace :
    compositeTrace 1 (initSendState [⟨1, []⟩]) exampleEvents =
      ["[思考过程]\na\n\n[模型回复]\n".toList,
       "[思考过程]\na\n\nb\n\n[模型回复]\n".toList,
       "[思考过程]\na\n\nb\n\n[模型回复]\nX".toList,
       "[思考过程]\na\n\nb\n\n[模型回复]\nXY".toList,
       "[思考过程]\na\n\nb\n\n[模型回复]\nXY".toList] ∧
    (compositeTrace 1 (initSendState [⟨1, []⟩]) exampleEvents).map parseContent =
      [("a".toList, []), ("a\n\nb".toList, []), ("a\n\nb".toList, "X".toList),
       ("a\n\nb".toList, "XY".toList), ("a\n\nb".toList, "XY".toList)] ∧
    (runEvents 1 (initSendState [⟨1, []⟩]) exampleEvents).messages =
      [⟨42, "[思考过程]\na\n\nb\n\n[模型回复]\nXY".toList⟩] ∧
    (runEvents 1 (initSendState [⟨1, []⟩]) exampleEvents).accumulatedContent = "XY".toList :=
  ⟨by decide, by decide, by decide, by decide⟩

/-! ## Claim C4 -/

/-- C4, counterexample: when the `text_message_end` event carries a
`message_id` equal to the provisional identifier, a later
`text_message_delta` still matches the stored message and changes its
displayed content — processing an event after the terminal event is not a
no-op in that case. -/
theorem terminal_noop_claim_cex :
    (stepEvent 1 (stepEvent 1 (initSendState [⟨1, []⟩]) (.answerEnd 1))
        (.delta ("Z".toList))).messages
      ≠ (stepEvent 1 (initSendState [⟨1, []⟩]) (.answerEnd 1)).messages := by
  decide

/-- C4 (amended): provided the final `message_id` differs from the
provisional identifier (in the code the provisional id is a `Date.now()`
timestamp, never a backend id), once a `text_message_end` event has been
processed every further event sequence leaves the stored messages — their
contents and identifiers — unchanged. -/
theorem terminal_state_noop_after_end (tempId mid : Int) (st : SendState)
    (es : List StreamEvent) (hmid : mid ≠ tempId) :
    (runEvents tempId (stepEvent tempId st (.answerEnd mid)) es).messages =
      (stepEvent tempId st (.answerEnd mid)).messages :=
  runEvents_messages_of_absent _ _ _ (after_end_absent tempId mid st hmid)

/-- Witness for the C4 theorem at a concrete input. -/
theorem terminal_state_noop_after_end_witness :
    (42 : Int) ≠ 1 ∧
    (runEvents 1 (stepEvent 1 (initSendState [⟨1, []⟩]) (.answerEnd 42))
        [.delta ("Z".toList), .thinking ("w".toList), .answerEnd 7]).messages =
      (stepEvent 1 (initSendState [⟨1, []⟩]) (.answerEnd 42)).messages :=
  ⟨by decide,
   terminal_state_noop_after_end 1 42 (initSendState [⟨1, []⟩])
     [.delta ("Z".toList), .thinking ("w".toList), .answerEnd 7] (by decide)⟩

/-! ## Claim C5 -/

/-- C5: for every event stream without `thinking_process` events, the
thinking buffer stays empty and every composite string recomputed along
the way is the accumulated answer alone — the concatenation of the
`text_message_delta` contents of some prefix of the stream, with no marker
sections added. -/
theorem no_thinking_stream_answer_only (tempId : Int) (msgs0 : List Msg)
    (es : List StreamEvent) (hes : ∀ e ∈ es, e.isThinking = false) :
    (runEvents tempId (initSendState msgs0) es).thinkingProcess = [] ∧
    ∀ f ∈ compositeTrace tempId (initSendState msgs0) es,
      ∃ p, p <+: es ∧ f = deltaConcat p := by
  obtain ⟨h1, h2⟩ := trace_no_thinking tempId es (initSendState msgs0) rfl hes
  refine ⟨h1, ?_⟩
  intro f hf
  obtain ⟨p, hp, hfe⟩ := h2 f hf
  exact ⟨p, hp, by simpa [initSendState] using hfe⟩

/-- Witness for the C5 theorem at a concrete input. -/
theorem no_thinking_stream_answer_only_witness :
    (∀ e ∈ [StreamEvent.delta ("X".toList), StreamEvent.answerEnd 42],
        e.isThinking = false) ∧
    ((runEvents 1 (initSendState [⟨1, []⟩])
        [StreamEvent.delta ("X".toList), StreamEvent.answerEnd 42]).thinkingProcess = [] ∧
     ∀ f ∈ compositeTrace 1 (initSendState [⟨1, []⟩])
        [StreamEvent.delta ("X".toList), StreamEvent.answerEnd 42],
       ∃ p, p <+: [StreamEvent.delta ("X".toList), StreamEvent.answerEnd 42] ∧
         f = deltaConcat p) :=
  ⟨by decide,
   no_thinking_stream_answer_only 1 [⟨1, []⟩]
     [StreamEvent.delta ("X".toList), StreamEvent.answerEnd 42] (by decide)⟩

/-! ## Claim C6 -/

/-- C6: after processing any event sequence from the initial state, the
answer buffer equals the concatenation (in arrival order) of the
`data.content` fields of the `text_message_delta` events, and the thinking
buffer equals the concatenation (in arrival order) of the `data.message`
fields of the `thinking_process` events, each followed by the `'\n'`
separator. -/
theorem buffers_are_event_concats (tempId : Int) (msgs0 : List Msg)
    (es : List StreamEvent) :
    (runEvents tempId (initSendState msgs0) es).accumulatedContent = deltaConcat es ∧
    (runEvents tempId (initSendState msgs0) es).thinkingProcess = thinkConcat es := by
  obtain ⟨h1, h2⟩ := runEvents_buffers tempId es (initSendState msgs0)
  exact ⟨by simpa [initSendState] using h1, by simpa [initSendState] using h2⟩

/-! ## Claim C7 -/

/-- C7, counterexample: in a stream carrying two `text_message_end` events
(ids `5` then `7`), whose last processed event is a `text_message_end`,
the stored message keeps the id of the first end event (`5`), not the
`message_id` carried by the last one (`7`). -/
theorem final_id_claim_cex :
    (runEvents 1 (initSendState [⟨1, []⟩])
        [.answerEnd 5, .answerEnd 7]).messages = [⟨5, []⟩] ∧
    (5 : Int) ≠ 7 :=
  ⟨by decide, by decide⟩

/-- C7 (amended): for a stream whose only `text_message_end` event is the
last one, carrying a `message_id` different from the provisional
identifier, the provisional identifier is replaced: some stored message
carries the final identifier, and no stored message keeps the provisional
one. -/
theorem end_event_replaces_provisional_id (tempId mid : Int) (msgs0 : List Msg)
    (es : List StreamEvent) (hes : ∀ e ∈ es, e.isAnswerEnd = false)
    (hmem : tempId ∈ msgs0.map Msg.id) (hmid : mid ≠ tempId) :
    (∃ c, (⟨mid, c⟩ : Msg) ∈
        (runEvents tempId (initSendState msgs0) (es ++ [.answerEnd mid])).messages) ∧
    ∀ m ∈ (runEvents tempId (initSendState msgs0) (es ++ [.answerEnd mid])).messages,
      m.id ≠ tempId := by
  have hsplit : runEvents tempId (initSendState msgs0) (es ++ [.answerEnd mid]) =
      stepEvent tempId (runEvents tempId (initSendState msgs0) es) (.answerEnd mid) := by
    simp [runEvents, List.foldl_append]
  rw [hsplit]
  have hids : (runEvents tempId (initSendState msgs0) es).messages.map Msg.id =
      msgs0.map Msg.id := runEvents_ids_of_no_end tempId (initSendState msgs0) es hes
  have hmem1 : tempId ∈ (runEvents tempId (initSendState msgs0) es).messages.map Msg.id := by
    rw [hids]; exact hmem
  obtain ⟨m0, hm0, hid0⟩ := List.mem_map.mp hmem1
  constructor
  · refine ⟨if (runEvents tempId (initSendState msgs0) es).thinkingProcess = []
        then (runEvents tempId (initSendState msgs0) es).accumulatedContent
        else mkFormatted (runEvents tempId (initSendState msgs0) es).thinkingProcess
          (runEvents tempId (initSendState msgs0) es).accumulatedContent, ?_⟩
    simp only [stepEvent]
    exact List.mem_map.mpr ⟨m0, hm0, by simp [hid0]⟩
  · exact after_end_absent tempId mid _ hmid

/-- Witness for the C7 theorem at a concrete input. -/
theorem end_event_replaces_provisional_id_witness :
    (∀ e ∈ [StreamEvent.delta ("X".toList)], e.isAnswerEnd = false) ∧
    (1 : Int) ∈ ([⟨1, []⟩] : List Msg).map Msg.id ∧
    (42 : Int) ≠ 1 ∧
    ((∃ c, (⟨42, c⟩ : Msg) ∈
        (runEvents 1 (initSendState [⟨1, []⟩])
          ([StreamEvent.delta ("X".toList)] ++ [.answerEnd 42])).messages) ∧
     ∀ m ∈ (runEvents 1 (initSendState [⟨1, []⟩])
          ([StreamEvent.delta ("X".toList)] ++ [.answerEnd 42])).messages,
       m.id ≠ 1) :=
  ⟨by decide, by decide, by decide,
   end_event_replaces_provisional_id 1 42 [⟨1, []⟩] [StreamEvent.delta ("X".toList)]
     (by decide) (by decide) (by decide)⟩

/-! ## Claim C8 -/

/-- C8: the catch-block cleanup does not remove the provisional messages.
With the user message added at `Date.now() = 100` (ids `100` and `101`)
and the transport failing when `Date.now() = 102`, the filter removes
messages with ids `102` and `103` and therefore leaves both provisional
messages in the conversation, contradicting the claimed removal. -/
theorem error_cleanup_misses_provisional_messages :
    addProvisionalMessages 100 ("hi".toList) [] =
      [⟨100, "hi".toList⟩, ⟨101, []⟩] ∧
    sendErrorCleanup 102 (addProvisionalMessages 100 ("hi".toList) []) =
      [⟨100, "hi".toList⟩, ⟨101, []⟩] :=
  ⟨by decide, by decide⟩

/-! ## Claim C9 -/

/-- C9: for every content string that does not contain both markers with
the thinking marker first (compared at their first occurrences, as
`indexOf` computes them), `parseContent` returns an empty thinking part
and the entire original string — untrimmed, nothing dropped — as the
model part.  The function is total, so it also never throws. -/
theorem parseContent_without_markers (c : List Char)
    (h : ¬(jsIncludes c thinkMarker = true ∧ jsIncludes c modelMarker = true ∧
           jsIndexOf c thinkMarker < jsIndexOf c modelMarker)) :
    parseContent c = ([], c) := by
  cases h1 : jsIncludes c thinkMarker with
  | false => simp [parseContent, h1]
  | true =>
    cases h2 : jsIncludes c modelMarker with
    | false => simp [parseContent, h1, h2]
    | true =>
      simp only [parseContent, h1, h2, Bool.and_self]
      rw [if_pos trivial, if_neg]
      rintro ⟨-, hlt⟩
      exact h ⟨h1, h2, by omega⟩

/-- Witness for the C9 theorem at a concrete input. -/
theorem parseContent_without_markers_witness :
    ¬(jsIncludes ("hello".toList) thinkMarker = true ∧
      jsIncludes ("hello".toList) modelMarker = true ∧
      jsIndexOf ("hello".toList) thinkMarker < jsIndexOf ("hello".toList) modelMarker) ∧
    parseContent ("hello".toList) = ([], "hello".toList) :=
  ⟨by decide, parseContent_without_markers _ (by decide)⟩

/-! ## Claim C10: helper lemmas -/

lemma thinkMarker_length : thinkMarker.length = 6 := by decide

lemma modelMarker_length : modelMarker.length = 6 := by decide

lemma mkFormatted_eq_left (t a : List Char) :
    mkFormatted t a = (thinkMarker ++ '\n' :: t) ++ (modelMarker ++ '\n' :: a) := by
  simp [mkFormatted]

lemma mkFormatted_eq_pre (t a : List Char) :
    mkFormatted t a = (thinkMarker ++ ['\n']) ++ (t ++ (modelMarker ++ '\n' :: a)) := by
  simp [mkFormatted]

lemma mkFormatted_eq_upto_model (t a : List Char) :
    mkFormatted t a = (thinkMarker ++ '\n' :: (t ++ modelMarker)) ++ ('\n' :: a) := by
  simp [mkFormatted]

lemma mkFormatted_length (t a : List Char) :
    (mkFormatted t a).length = 14 + t.length + a.length := by
  simp [mkFormatted, thinkMarker_length, modelMarker_length]
  omega

lemma prefix_region_length : (thinkMarker ++ ['\n']).length = 7 := by decide

lemma left_region_length (t : List Char) :
    (thinkMarker ++ '\n' :: t).length = 7 + t.length := by
  simp [thinkMarker_length]
  omega

lemma upto_model_length (t : List Char) :
    (thinkMarker ++ '\n' :: (t ++ modelMarker)).length = 13 + t.length := by
  simp [thinkMarker_length, modelMarker_length]
  omega

lemma jsTrim_cons_nl (s : List Char) : jsTrim ('\n' :: s) = jsTrim s := by
  have h : isJsSpace '\n' = true := by decide
  simp [jsTrim, List.dropWhile_cons, h]

lemma jsSubstring_coe (s : List Char) (i j : Nat) (hij : i ≤ j) (hj : j ≤ s.length) :
    jsSubstring s (i : Int) (j : Int) = (s.take j).drop i := by
  simp only [jsSubstring]
  have ha : min (max (i : Int) 0) (s.length : Int) = (i : Int) := by omega
  have hb : min (max (j : Int) 0) (s.length : Int) = (j : Int) := by omega
  rw [ha, hb]
  have hlo : min (i : Int) (j : Int) = (i : Int) := by omega
  have hhi : max (i : Int) (j : Int) = (j : Int) := by omega
  rw [hlo, hhi]
  rw [show ((i : Int)).toNat = i by omega, show ((j : Int)).toNat = j by omega]

lemma modelMarker_first_occurrence (t a : List Char)
    (ht : firstOccurrence modelMarker t = none) :
    firstOccurrence modelMarker (mkFormatted t a) = some (7 + t.length) := by
  apply firstOccurrence_eq_some
  · rw [mkFormatted_eq_left, ← left_region_length t, List.drop_left]
    exact List.prefix_append _ _
  · intro m hm hp
    by_cases hm7 : m < 7
    · have hdrop : (mkFormatted t a).drop m =
          (thinkMarker ++ ['\n']).drop m ++ (t ++ (modelMarker ++ '\n' :: a)) := by
        rw [mkFormatted_eq_pre, List.drop_append_eq_append_drop]
        rw [show m - (thinkMarker ++ ['\n']).length = 0 by rw [prefix_region_length]; omega,
            List.drop_zero]
      rcases Nat.eq_zero_or_pos m with hm0 | hm1
      · subst hm0
        rw [List.drop_zero] at hp
        have hchar : (mkFormatted t a)[1]? = modelMarker[1]? :=
          prefix_getElem hp (by rw [modelMarker_length]; omega)
        have h2 : (mkFormatted t a)[1]? = some '思' := by
          rw [mkFormatted_eq_pre,
              List.getElem?_append_left
                (by rw [prefix_region_length]; omega : (1 : Nat) < (thinkMarker ++ ['\n']).length)]
          decide
        rw [h2, show modelMarker[1]? = some '模' by decide] at hchar
        exact absurd hchar (by decide)
      · have hchar : ((mkFormatted t a).drop m)[0]? = modelMarker[0]? :=
          prefix_getElem hp (by rw [modelMarker_length]; omega)
        rw [hdrop] at hchar
        have hlpos : 0 < ((thinkMarker ++ ['\n']).drop m).length := by
          rw [List.length_drop, prefix_region_length]; omega
        rw [List.getElem?_append_left hlpos] at hchar
        have hidx : ((thinkMarker ++ ['\n']).drop m)[0]? = (thinkMarker ++ ['\n'])[m]? := by
          simp [List.getElem?_drop]
        rw [hidx, show modelMarker[0]? = some '[' by decide] at hchar
        have : ∀ k, k < 7 → 1 ≤ k → ¬ ((thinkMarker ++ ['\n'])[k]? = some '[') := by decide
        exact this m hm7 hm1 hchar
    · push_neg at hm7
      have hk : m - 7 < t.length := by omega
      have hdrop : (mkFormatted t a).drop m =
          t.drop (m - 7) ++ (modelMarker ++ '\n' :: a) := by
        rw [mkFormatted_eq_pre, List.drop_append_eq_append_drop]
        rw [List.drop_eq_nil_of_le (by rw [prefix_region_length]; omega), List.nil_append,
            prefix_region_length, List.drop_append_eq_append_drop,
            show m - 7 - t.length = 0 by omega, List.drop_zero]
      rw [hdrop] at hp
      have hul : (t.drop (m - 7)).length = t.length - (m - 7) := List.length_drop _ _
      have hupos : 0 < (t.drop (m - 7)).length := by omega
      by_cases h6 : 6 ≤ (t.drop (m - 7)).length
      · obtain ⟨w, hw⟩ := hp
        have e1 : (modelMarker ++ w).take 6 = modelMarker := by
          conv_lhs => rw [show (6 : Nat) = modelMarker.length by decide]
          exact List.take_left _ _
        have e2 : (t.drop (m - 7) ++ (modelMarker ++ '\n' :: a)).take 6 =
            (t.drop (m - 7)).take 6 := by
          rw [List.take_append_eq_append_take, show 6 - (t.drop (m - 7)).length = 0 by omega,
              List.take_zero, List.append_nil]
        have hM2u : modelMarker <+: t.drop (m - 7) := by
          rw [show modelMarker = (t.drop (m - 7)).take 6 by rw [← e1, hw, e2]]
          exact List.take_prefix 6 _
        exact firstOccurrence_none ht (m - 7) hM2u
      · push_neg at h6
        have hchar : (t.drop (m - 7) ++ (modelMarker ++ '\n' :: a))[(t.drop (m - 7)).length]? =
            modelMarker[(t.drop (m - 7)).length]? :=
          prefix_getElem hp (by rw [modelMarker_length]; omega)
        rw [List.getElem?_append_right (Nat.le_refl _), Nat.sub_self,
            List.getElem?_append_left (by rw [modelMarker_length]; omega : (0 : Nat) < modelMarker.length),
            show modelMarker[0]? = some '[' by decide] at hchar
        have : ∀ j, j < 6 → 1 ≤ j → ¬ (modelMarker[j]? = some '[') := by decide
        exact this (t.drop (m - 7)).length h6 hupos hchar.symm

/-! ## Claim C10 -/

/-- C10: round-trip of the legacy marker encoding.  For every thinking
text `t` (non-empty, containing neither marker) and answer text `a`
(containing neither marker), parsing the composite string the reassembler
builds (`[思考过程]\n` + t + `[模型回复]\n` + a) with `parseContent`
recovers the thinking part as `t` with surrounding whitespace trimmed and
the model part as `a` with surrounding whitespace trimmed. -/
theorem marker_roundtrip (t a : List Char) (hne : t ≠ [])
    (ht1 : jsIncludes t thinkMarker = false) (ht2 : jsIncludes t modelMarker = false)
    (ha1 : jsIncludes a thinkMarker = false) (ha2 : jsIncludes a modelMarker = false) :
    parseContent (mkFormatted t a) = (jsTrim t, jsTrim a) := by
  have ht2' : firstOccurrence modelMarker t = none := by
    cases hfo : firstOccurrence modelMarker t with
    | none => rfl
    | some n => rw [jsIncludes, hfo] at ht2; simp at ht2
  have h1 : firstOccurrence thinkMarker (mkFormatted t a) = some 0 := by
    apply firstOccurrence_of_prefix
    show thinkMarker <+: thinkMarker ++ ('\n' :: (t ++ modelMarker ++ '\n' :: a))
    exact List.prefix_append _ _
  have h2 := modelMarker_first_occurrence t a ht2'
  have hi1 : jsIncludes (mkFormatted t a) thinkMarker = true := by
    rw [jsIncludes, h1]; rfl
  have hi2 : jsIncludes (mkFormatted t a) modelMarker = true := by
    rw [jsIncludes, h2]; rfl
  have hx1 : jsIndexOf (mkFormatted t a) thinkMarker = ((0 : Nat) : Int) := by
    unfold jsIndexOf
    rw [h1]
  have hx2 : jsIndexOf (mkFormatted t a) modelMarker = ((7 + t.length : Nat) : Int) := by
    unfold jsIndexOf
    rw [h2]
  have hA : jsTrim (jsSubstring (mkFormatted t a) (((0 : Nat) : Int) + 6)
      ((7 + t.length : Nat) : Int)) = jsTrim t := by
    rw [show (((0 : Nat) : Int)) + 6 = ((6 : Nat) : Int) by norm_num,
        jsSubstring_coe (mkFormatted t a) 6 (7 + t.length) (by omega)
          (by rw [mkFormatted_length]; omega)]
    have htake : (mkFormatted t a).take (7 + t.length) = thinkMarker ++ '\n' :: t := by
      rw [mkFormatted_eq_left, ← left_region_length t, List.take_left]
    rw [htake]
    have hdrop : (thinkMarker ++ '\n' :: t).drop 6 = '\n' :: t := by
      conv_lhs => rw [show (6 : Nat) = thinkMarker.length from thinkMarker_length.symm]
      exact List.drop_left _ _
    rw [hdrop, jsTrim_cons_nl]
  have hB : jsTrim (jsSubstringFrom (mkFormatted t a)
      (((7 + t.length : Nat) : Int) + 6)) = jsTrim a := by
    rw [jsSubstringFrom,
        show (((7 + t.length : Nat) : Int)) + 6 = ((13 + t.length : Nat) : Int) by
          push_cast; omega,
        jsSubstring_coe (mkFormatted t a) (13 + t.length) (mkFormatted t a).length
          (by rw [mkFormatted_length]; omega) (Nat.le_refl _),
        List.take_length]
    have hdrop : (mkFormatted t a).drop (13 + t.length) = '\n' :: a := by
      rw [mkFormatted_eq_upto_model, ← upto_model_length t, List.drop_left]
    rw [hdrop, jsTrim_cons_nl]
  simp only [parseContent, hi1, hi2, Bool.and_self]
  rw [if_pos trivial, hx1, hx2,
      if_pos ⟨by norm_num, by push_cast; omega⟩, hA, hB]

/-- Witness for the C10 theorem at a concrete input. -/
theorem marker_roundtrip_witness :
    (("th\nink".toList ≠ []) ∧
     jsIncludes ("th\nink".toList) thinkMarker = false ∧
     jsIncludes ("th\nink".toList) modelMarker = false ∧
     jsIncludes (" ans ".toList) thinkMarker = false ∧
     jsIncludes (" ans ".toList) modelMarker = false) ∧
    parseContent (mkFormatted ("th\nink".toList) (" ans ".toList)) =
      (jsTrim ("th\nink".toList), jsTrim (" ans ".toList)) :=
  ⟨⟨by decide, by decide, by decide, by decide, by decide⟩,
   marker_roundtrip ("th\nink".toList) (" ans ".toList) (by decide) (by decide)
     (by decide) (by decide) (by decide)⟩

/-! ## Claim C1 -/

/-- C1: the transport reader is not chunk-boundary independent.  A
single-chunk stream holding one newline-terminated delta-event record
delivers one parsed event, but the same bytes split into two chunks in
the middle of the line deliver no event at all: the read loop splits each
chunk on the newline separately and buffers nothing across chunks, so the
first fragment fails to parse and is discarded and the second fragment
lacks the record mark. -/
theorem chatStream_chunk_split_loses_event :
    ("data: \x7b\"type\":\"text_message_del".toList) ++
        ("ta\",\"data\":\x7b\"content\":\"X\"\x7d\x7d\n".toList) =
      ("data: \x7b\"type\":\"text_message_delta\",\"data\":\x7b\"content\":\"X\"\x7d\x7d\n".toList) ∧
    (chatStreamEvents
        [("data: \x7b\"type\":\"text_message_delta\",\"data\":\x7b\"content\":\"X\"\x7d\x7d\n".toList)]).length
      = 1 ∧
    (chatStreamEvents
        [("data: \x7b\"type\":\"text_message_delta\",\"data\":\x7b\"content\":\"X\"\x7d\x7d\n".toList)]).filterMap
        eventOfJson = [.delta ("X".toList)] ∧
    chatStreamEvents
        [("data: \x7b\"type\":\"text_message_del".toList),
         ("ta\",\"data\":\x7b\"content\":\"X\"\x7d\x7d\n".toList)] = [] :=
  ⟨by decide, by decide, rfl, rfl⟩

/-! ## Claim C3: helper lemmas -/

lemma splitOnNl_append_nl (x r : List Char) (hx : '\n' ∉ x) :
    splitOnNl (x ++ '\n' :: r) = x :: splitOnNl r := by
  induction x with
  | nil => simp [splitOnNl]
  | cons c cs ih =>
    simp only [List.mem_cons, not_or] at hx
    obtain ⟨hc, hcs⟩ := hx
    rw [List.cons_append, splitOnNl, if_neg (fun h => hc h.symm), ih hcs]

lemma dataLinePayload_mk (p : List Char) : dataLinePayload (dataMark ++ p) = some p := by
  have h6 : (6 : Nat) = dataMark.length := by decide
  rw [dataLinePayload, if_pos ( List.isPrefixOf_iff_prefix.mpr (List.prefix_append _ _)),
      h6, List.drop_left]

lemma dataLinePayload_nil : dataLinePayload [] = none := by decide

lemma processLine_parsed (tempId : Int) (st : SendState) (p : List Char)
    (e : StreamEvent) (h : (jsonParse p).bind eventOfJson = some e) :
    processLine tempId st (dataMark ++ p) = stepEvent tempId st e := by
  obtain ⟨j, hj, he⟩ := Option.bind_eq_some.mp h
  simp only [processLine, dataLinePayload_mk, hj, he]

lemma processLine_bad (tempId : Int) (st : SendState) (p : List Char)
    (h : jsonParse p = none) :
    processLine tempId st (dataMark ++ p) = st := by
  simp only [processLine, dataLinePayload_mk, h]

lemma processLine_empty (tempId : Int) (st : SendState) :
    processLine tempId st [] = st := by
  simp only [processLine, dataLinePayload_nil]

/-! ## Claim C3 -/

/-- C3: a malformed `data: ` line between two valid event lines does not
abort processing: running the read loop on the chunk containing the three
lines applies exactly the two valid events, in order, to the reassembler
state — the same result as running the stream without the malformed line —
so the events before and after the bad line are both reflected in the
final buffers. -/
theorem stream_malformed_line_skipped (tempId : Int) (st : SendState)
    (p1 pbad p2 : List Char) (e1 e2 : StreamEvent)
    (h1 : (jsonParse p1).bind eventOfJson = some e1)
    (h2 : (jsonParse p2).bind eventOfJson = some e2)
    (hbad : jsonParse pbad = none)
    (hn1 : '\n' ∉ p1) (hnb : '\n' ∉ pbad) (hn2 : '\n' ∉ p2) :
    runChunks tempId st [dataLine p1 ++ dataLine pbad ++ dataLine p2] =
      stepEvent tempId (stepEvent tempId st e1) e2 ∧
    runChunks tempId st [dataLine p1 ++ dataLine p2] =
      stepEvent tempId (stepEvent tempId st e1) e2 := by
  have hmark : ('\n' : Char) ∉ dataMark := by decide
  have hx1 : '\n' ∉ dataMark ++ p1 := by
    intro hmem
    rcases List.mem_append.mp hmem with h | h
    · exact hmark h
    · exact hn1 h
  have hxb : '\n' ∉ dataMark ++ pbad := by
    intro hmem
    rcases List.mem_append.mp hmem with h | h
    · exact hmark h
    · exact hnb h
  have hx2 : '\n' ∉ dataMark ++ p2 := by
    intro hmem
    rcases List.mem_append.mp hmem with h | h
    · exact hmark h
    · exact hn2 h
  constructor
  · have hsplit : splitOnNl (dataLine p1 ++ dataLine pbad ++ dataLine p2) =
        (dataMark ++ p1) :: (dataMark ++ pbad) :: (dataMark ++ p2) :: [[]] := by
      rw [show dataLine p1 ++ dataLine pbad ++ dataLine p2 =
            (dataMark ++ p1) ++ '\n' ::
              ((dataMark ++ pbad) ++ '\n' :: ((dataMark ++ p2) ++ '\n' :: [])) by
          simp [dataLine]]
      rw [splitOnNl_append_nl _ _ hx1, splitOnNl_append_nl _ _ hxb,
          splitOnNl_append_nl _ _ hx2]
      rfl
    show processChunk tempId st (dataLine p1 ++ dataLine pbad ++ dataLine p2) = _
    rw [processChunk, hsplit]
    simp only [List.foldl_cons, List.foldl_nil]
    rw [processLine_parsed tempId st p1 e1 h1, processLine_bad tempId _ pbad hbad,
        processLine_parsed tempId _ p2 e2 h2, processLine_empty]
  · have hsplit : splitOnNl (dataLine p1 ++ dataLine p2) =
        (dataMark ++ p1) :: (dataMark ++ p2) :: [[]] := by
      rw [show dataLine p1 ++ dataLine p2 =
            (dataMark ++ p1) ++ '\n' :: ((dataMark ++ p2) ++ '\n' :: []) by
          simp [dataLine]]
      rw [splitOnNl_append_nl _ _ hx1, splitOnNl_append_nl _ _ hx2]
      rfl
    show processChunk tempId st (dataLine p1 ++ dataLine p2) = _
    rw [processChunk, hsplit]
    simp only [List.foldl_cons, List.foldl_nil]
    rw [processLine_parsed tempId st p1 e1 h1, processLine_parsed tempId _ p2 e2 h2,
        processLine_empty]

/-- Witness for the C3 theorem at a concrete input. -/
theorem stream_malformed_line_skipped_witness :
    ((jsonParse ("\x7b\"type\":\"thinking_process\",\"data\":\x7b\"message\":\"A\"\x7d\x7d".toList)).bind
        eventOfJson = some (.thinking ("A".toList)) ∧
     (jsonParse ("\x7b\"type\":\"text_message_delta\",\"data\":\x7b\"content\":\"B\"\x7d\x7d".toList)).bind
        eventOfJson = some (.delta ("B".toList)) ∧
     jsonParse ("\x7b".toList) = none) ∧
    runChunks 1 (initSendState [⟨1, []⟩])
        [dataLine ("\x7b\"type\":\"thinking_process\",\"data\":\x7b\"message\":\"A\"\x7d\x7d".toList) ++
         dataLine ("\x7b".toList) ++
         dataLine ("\x7b\"type\":\"text_message_delta\",\"data\":\x7b\"content\":\"B\"\x7d\x7d".toList)] =
      stepEvent 1 (stepEvent 1 (initSendState [⟨1, []⟩]) (.thinking ("A".toList)))
        (.delta ("B".toList)) :=
  ⟨⟨by decide, by decide, by rfl⟩,
   (stream_malformed_line_skipped 1 (initSendState [⟨1, []⟩])
      ("\x7b\"type\":\"thinking_process\",\"data\":\x7b\"message\":\"A\"\x7d\x7d".toList)
      ("\x7b".toList)
      ("\x7b\"type\":\"text_message_delta\",\"data\":\x7b\"content\":\"B\"\x7d\x7d".toList)
      (.thinking ("A".toList)) (.delta ("B".toList))
      (by decide) (by decide) (by rfl) (by decide) (by decide) (by decide)).1⟩
